import Mathlib

/-!
Verification development for the terminal session coordinator of the
Aider-Chat extension (class `AiderProcess` and provider
`AiderChatViewProvider`).

The Stream Interceptor (`AiderProcess.notifyData`,
`AiderProcess.handleInteractivePrompt`, `AiderProcess.dispatchToCallbacks`)
is embedded as a pure step function on the interception buffer, emitting an
explicit event trace: data deliveries, prompt deliveries and synthetic
cursor-position responses written back to the child.

The lifecycle methods (`startWithSize`, `stop`, `sendMessage`,
`handleWebviewReady`) are embedded as state-transition functions on an
explicit coordinator state, with the fallible external operations (pty
spawn, pipe write, kill) modelled by boolean outcome parameters and with
an explicit trace of writes, delays, kills and spawns.

Strings are modelled as `List Char`; JavaScript `String.prototype.indexOf`,
`slice`, `replace`, `trim`, `toLowerCase` and regex substring tests are
translated to executable list functions.
-/

namespace AiderChat

/-- The cursor-position query sequence `"\x1b[6n"` (CPR_SEQ in the source). -/
def CPR_SEQ : List Char := ['\x1b', '[', '6', 'n']

/-- The fixed synthetic cursor-position response `"\x1b[24;1R"`
(CPR_RESP in the source). -/
def CPR_RESP : List Char := ['\x1b', '[', '2', '4', ';', '1', 'R']

/-- The escape introducer byte. -/
def ESC : Char := '\x1b'

/-- `occAt s p` : the CPR query sequence occurs in `s` at position `p`. -/
def occAt (s : List Char) (p : Nat) : Prop :=
  (s.drop p).take 4 = CPR_SEQ

instance (s : List Char) (p : Nat) : Decidable (occAt s p) := by
  unfold occAt; infer_instance

/-- First position of the CPR query in `s`, as computed by
`String.prototype.indexOf('\x1b[6n')`. -/
def findCPR : List Char → Option Nat
  | [] => none
  | a :: t =>
    if ((a :: t).take 4) = CPR_SEQ then some 0
    else (findCPR t).map (· + 1)

/-- Number of positions of `s` at which the CPR query occurs. -/
def countOcc : List Char → Nat
  | [] => 0
  | a :: t => (if ((a :: t).take 4) = CPR_SEQ then 1 else 0) + countOcc t

/-- `startsWithB pat s` : `s` begins with `pat`. -/
def startsWithB : List Char → List Char → Bool
  | [], _ => true
  | _ :: _, [] => false
  | a :: as, b :: bs => a == b && startsWithB as bs

/-- `containsSub pat s` : `pat` occurs as a contiguous substring of `s`
(the translation of `String.prototype.includes` / a literal regex test). -/
def containsSub (pat : List Char) : List Char → Bool
  | [] => startsWithB pat []
  | b :: bs => startsWithB pat (b :: bs) || containsSub pat bs

/-- Lower-casing, the translation of `toLowerCase` / the regex `i` flag
for the ASCII-only patterns used by the source. -/
def lowerL (s : List Char) : List Char := s.map Char.toLower

/-- JavaScript whitespace characters relevant to `String.prototype.trim`. -/
def isWsChar (c : Char) : Bool :=
  c == ' ' || c == '\t' || c == '\n' || c == '\r' || c == '\x0b' || c == '\x0c'

/-- Translation of `String.prototype.trim`. -/
def jsTrim (s : List Char) : List Char :=
  ((s.dropWhile isWsChar).reverse.dropWhile isWsChar).reverse

/-- The fixed interactive-prompt patterns of
`AiderProcess.handleInteractivePrompt`, lower-cased (all are tested with
the case-insensitive regex flag in the source). -/
def promptPatterns : List (List Char) :=
  ["press return to continue".toList,
   "press enter to continue".toList,
   "press any key to continue".toList,
   "warning: terminal is not fully functional".toList,
   "(y/n)".toList,
   "[y/n]".toList,
   "[y/n]".toList]

/-- `needsResponse` in `handleInteractivePrompt`: some prompt pattern
matches the text. -/
def promptMatch (t : List Char) : Bool :=
  promptPatterns.any (fun pat => containsSub pat (lowerL t))

/-- The continuation test in `handleInteractivePrompt`
(`data.toLowerCase().includes('press return') || ... 'press enter'
|| ... 'press any key'`). -/
def contMatch (t : List Char) : Bool :=
  containsSub "press return".toList (lowerL t) ||
  containsSub "press enter".toList (lowerL t) ||
  containsSub "press any key".toList (lowerL t)

/-- A Prompt Descriptor: the record handed to prompt callbacks. -/
structure PromptDescriptor where
  text : List Char
  options : List String
  ptype : String
  deriving Repr, DecidableEq

/-- Descriptor constructed by `handleInteractivePrompt` for matched text. -/
def mkPrompt (t : List Char) : PromptDescriptor :=
  { text := jsTrim t
    options := if contMatch t then ["Continue"] else ["Yes", "No"]
    ptype := if contMatch t then "continue" else "confirmation" }

/-- Events emitted while the Stream Interceptor processes a chunk:
`data` is a delivery to the ordinary data callbacks, `prompt` a delivery
to the prompt callbacks (carrying both the original segment and the
descriptor built from it), `resp` a synchronous write back to the child. -/
inductive IEvent where
  | data (t : List Char)
  | prompt (orig : List Char) (pd : PromptDescriptor)
  | resp (t : List Char)
  deriving Repr, DecidableEq

/-- Route one flushed segment: `handleInteractivePrompt` first, and only on
no match `dispatchToCallbacks` (the `if (!this.handleInteractivePrompt(x))
this.dispatchToCallbacks(x)` pattern, guarded by the emptiness checks). -/
def flushSegment (t : List Char) : List IEvent :=
  if t = [] then []
  else if promptMatch t then [IEvent.prompt t (mkPrompt t)]
  else [IEvent.data t]

/-- The CPR-removal loop of `notifyData`: repeatedly find the first CPR
query in the buffer, flush the text before it, write the synthetic
response back to the child, and drop the matched sequence. Fuel-indexed
for structural recursion; `fuel ≥ buffer.length` is always sufficient
since each iteration drops at least four characters. -/
def cprLoop : Nat → List Char → List IEvent × List Char
  | 0, buf => ([], buf)
  | fuel + 1, buf =>
    match findCPR buf with
    | none => ([], buf)
    | some i =>
      let before := buf.take i
      let rest := buf.drop (i + 4)
      let r := cprLoop fuel rest
      (flushSegment before ++ IEvent.resp CPR_RESP :: r.1, r.2)

/-- Interception Buffer state. -/
structure IState where
  buffer : List Char
  deriving Repr, DecidableEq

/-- `MAX_TAIL` in `notifyData`. -/
def MAX_TAIL : Nat := 16

/-- No escape introducer in the buffer
(`incomingBuffer.indexOf('\x1b') === -1`). -/
def noEscL (s : List Char) : Bool := s.all (fun c => c ≠ ESC)

/-- The tail-retention rule of `notifyData`: when the buffer exceeds
`MAX_TAIL`, flush everything but the trailing `MAX_TAIL` characters. -/
def ruleTail (b1 : List Char) : List IEvent × List Char :=
  if MAX_TAIL < b1.length then
    (flushSegment (b1.take (b1.length - MAX_TAIL)), b1.drop (b1.length - MAX_TAIL))
  else ([], b1)

/-- The escape-free flush rule of `notifyData`: a non-empty buffer with no
escape introducer is flushed entirely. -/
def ruleNoEsc (b2 : List Char) : List IEvent × List Char :=
  if b2 ≠ [] ∧ noEscL b2 = true then (flushSegment b2, ([] : List Char))
  else ([], b2)

/-- Translation of `AiderProcess.notifyData` (the buffered Stream
Interceptor): append the chunk, run the CPR-removal loop, flush all but a
16-character tail when the buffer is longer than that, and flush the
whole remainder when it is free of the escape introducer. -/
def notifyData (s : IState) (d : List Char) : IState × List IEvent :=
  let buf0 := s.buffer ++ d
  let r1 := cprLoop buf0.length buf0
  let r2 := ruleTail r1.2
  let r3 := ruleNoEsc r2.2
  (⟨r3.2⟩, r1.1 ++ r2.1 ++ r3.1)

/-- Process a sequence of chunks through the Stream Interceptor. -/
def runFrom (s : IState) : List (List Char) → IState × List IEvent
  | [] => (s, [])
  | d :: ds =>
    let r1 := notifyData s d
    let r2 := runFrom r1.1 ds
    (r2.1, r1.2 ++ r2.2)

/-- Process chunks starting from the empty Interception Buffer. -/
def runIntercept (cs : List (List Char)) : IState × List IEvent :=
  runFrom ⟨[]⟩ cs

/-- Concatenation of a chunk sequence. -/
def chunksConcat (cs : List (List Char)) : List Char := cs.flatten

/-- Text delivered to the ordinary data callbacks, concatenated. -/
def dataConcat (es : List IEvent) : List Char :=
  es.flatMap (fun e => match e with | IEvent.data t => t | _ => [])

/-- Text entering the forward path (data or prompt deliveries; synthetic
responses excised), concatenated. -/
def fwdConcat (es : List IEvent) : List Char :=
  es.flatMap (fun e =>
    match e with
    | IEvent.data t => t
    | IEvent.prompt o _ => o
    | IEvent.resp _ => [])

/-- Payloads of the synthetic responses written back to the child. -/
def respPayloads (es : List IEvent) : List (List Char) :=
  es.filterMap (fun e => match e with | IEvent.resp t => some t | _ => none)

/-! ### Positions of the CPR query -/

theorem occAt_len {s : List Char} {p : Nat} (h : occAt s p) : p + 4 ≤ s.length := by
  unfold occAt at h
  have h4 : ((s.drop p).take 4).length = CPR_SEQ.length := by rw [h]
  simp [List.length_take, List.length_drop, CPR_SEQ] at h4
  omega

theorem occAt_nil (p : Nat) : ¬ occAt [] p := by
  unfold occAt
  simp [CPR_SEQ]

theorem occAt_zero {s : List Char} : occAt s 0 ↔ s.take 4 = CPR_SEQ := Iff.rfl

theorem occAt_cons_succ {a : Char} {t : List Char} {p : Nat} :
    occAt (a :: t) (p + 1) ↔ occAt t p := Iff.rfl

theorem occAt_drop {s : List Char} {k q : Nat} : occAt (s.drop k) q ↔ occAt s (k + q) := by
  unfold occAt
  rw [List.drop_drop]

theorem findCPR_cons (a : Char) (t : List Char) :
    findCPR (a :: t) =
      if (a :: t).take 4 = CPR_SEQ then some 0 else (findCPR t).map (· + 1) := rfl

theorem countOcc_cons (a : Char) (t : List Char) :
    countOcc (a :: t) = (if (a :: t).take 4 = CPR_SEQ then 1 else 0) + countOcc t := rfl

theorem findCPR_some_occ : ∀ {s : List Char} {i : Nat}, findCPR s = some i → occAt s i := by
  intro s
  induction s with
  | nil => intro i h; simp [findCPR] at h
  | cons a t ih =>
    intro i h
    rw [findCPR_cons] at h
    by_cases hc : ((a :: t).take 4) = CPR_SEQ
    · rw [if_pos hc] at h
      injection h with h0
      subst h0
      exact occAt_zero.mpr hc
    · rw [if_neg hc, Option.map_eq_some'] at h
      obtain ⟨j, hj, rfl⟩ := h
      exact occAt_cons_succ.mpr (ih hj)

theorem findCPR_some_least : ∀ {s : List Char} {i : Nat}, findCPR s = some i →
    ∀ j, j < i → ¬ occAt s j := by
  intro s
  induction s with
  | nil => intro i h; simp [findCPR] at h
  | cons a t ih =>
    intro i h j hj
    rw [findCPR_cons] at h
    by_cases hc : ((a :: t).take 4) = CPR_SEQ
    · rw [if_pos hc] at h
      injection h with h0
      omega
    · rw [if_neg hc, Option.map_eq_some'] at h
      obtain ⟨k, hk, rfl⟩ := h
      cases j with
      | zero => intro hocc; exact hc (occAt_zero.mp hocc)
      | succ m => intro hocc; exact ih hk m (by omega) (occAt_cons_succ.mp hocc)

theorem findCPR_none_iff : ∀ {s : List Char}, findCPR s = none ↔ ∀ p, ¬ occAt s p := by
  intro s
  induction s with
  | nil => simp [findCPR]; intro p; exact occAt_nil p
  | cons a t ih =>
    rw [findCPR_cons]
    by_cases hc : ((a :: t).take 4) = CPR_SEQ
    · rw [if_pos hc]
      constructor
      · intro h; exact absurd h (by simp)
      · intro h; exact absurd (occAt_zero.mpr hc) (h 0)
    · rw [if_neg hc, Option.map_eq_none', ih]
      constructor
      · intro h p
        cases p with
        | zero => intro hocc; exact hc (occAt_zero.mp hocc)
        | succ m => intro hocc; exact h m (occAt_cons_succ.mp hocc)
      · intro h q hq
        exact h (q + 1) (occAt_cons_succ.mpr hq)

theorem findCPR_eq_some_of : ∀ {s : List Char} {i : Nat},
    occAt s i → (∀ j, j < i → ¬ occAt s j) → findCPR s = some i := by
  intro s
  induction s with
  | nil => intro i h _; exact absurd h (occAt_nil i)
  | cons a t ih =>
    intro i hocc hleast
    rw [findCPR_cons]
    by_cases hc : ((a :: t).take 4) = CPR_SEQ
    · cases i with
      | zero => rw [if_pos hc]
      | succ m => exact absurd (occAt_zero.mpr hc) (hleast 0 (Nat.succ_pos m))
    · cases i with
      | zero => exact absurd (occAt_zero.mp hocc) hc
      | succ m =>
        rw [if_neg hc,
          ih (occAt_cons_succ.mp hocc)
            (fun j hj hjocc => hleast (j + 1) (by omega) (occAt_cons_succ.mpr hjocc))]
        rfl

theorem occAt_append_iff_of_le {u x : List Char} {p : Nat} (hp : p + 4 ≤ u.length) :
    occAt (u ++ x) p ↔ occAt u p := by
  unfold occAt
  rw [List.drop_append_of_le_length (by omega),
    List.take_append_of_le_length (by simp [List.length_drop]; omega)]

theorem occAt_append_left {u x : List Char} {p : Nat} (h : occAt u p) : occAt (u ++ x) p :=
  (occAt_append_iff_of_le (occAt_len h)).mpr h

theorem occAt_append_shift {u x : List Char} {q : Nat} :
    occAt (u ++ x) (u.length + q) ↔ occAt x q := by
  unfold occAt
  rw [List.drop_append q]

theorem occAt_decomp {s : List Char} {i : Nat} (h : occAt s i) :
    s = s.take i ++ CPR_SEQ ++ s.drop (i + 4) := by
  unfold occAt at h
  rw [List.append_assoc]
  conv_lhs => rw [← List.take_append_drop i s]
  congr 1
  conv_lhs => rw [← List.take_append_drop 4 (s.drop i)]
  rw [h, List.drop_drop]

theorem esc_mem_of_occAt_append {s x : List Char} {p : Nat} (hp : p < s.length)
    (h : occAt (s ++ x) p) : ESC ∈ s := by
  unfold occAt at h
  rw [List.drop_append_of_le_length (by omega)] at h
  cases hd : s.drop p with
  | nil => rw [List.drop_eq_nil_iff] at hd; omega
  | cons a t =>
    rw [hd] at h
    simp [CPR_SEQ] at h
    have ha : a = ESC := h.1
    have hmem : a ∈ s.drop p := by rw [hd]; exact List.mem_cons_self a t
    rw [← ha]
    exact List.drop_subset p s hmem

theorem esc_mem_of_occAt {s : List Char} {p : Nat} (h : occAt s p) : ESC ∈ s := by
  have hlen := occAt_len h
  have h' : occAt (s ++ []) p := by rwa [List.append_nil]
  exact esc_mem_of_occAt_append (by omega) h'

theorem noEscL_findCPR {s : List Char} (h : noEscL s = true) : findCPR s = none := by
  rw [findCPR_none_iff]
  intro p hocc
  have := esc_mem_of_occAt hocc
  simp [noEscL, List.all_eq_true] at h
  exact h ESC this rfl

/-! ### Counting occurrences -/

theorem countOcc_pos_of_occ : ∀ {s : List Char} {p : Nat}, occAt s p → 1 ≤ countOcc s := by
  intro s
  induction s with
  | nil => intro p h; exact absurd h (occAt_nil p)
  | cons a t ih =>
    intro p h
    cases p with
    | zero =>
      have hc := occAt_zero.mp h
      rw [countOcc_cons, if_pos hc]
      omega
    | succ m =>
      have := ih (occAt_cons_succ.mp h)
      rw [countOcc_cons]
      omega

theorem countOcc_two_of_occ : ∀ {s : List Char} {p q : Nat}, p < q →
    occAt s p → occAt s q → 2 ≤ countOcc s := by
  intro s
  induction s with
  | nil => intro p q _ h _; exact absurd h (occAt_nil p)
  | cons a t ih =>
    intro p q hpq hp hq
    cases p with
    | zero =>
      have hc := occAt_zero.mp hp
      cases q with
      | zero => omega
      | succ m =>
        have h1 := countOcc_pos_of_occ (occAt_cons_succ.mp hq)
        rw [countOcc_cons, if_pos hc]
        omega
    | succ k =>
      cases q with
      | zero => omega
      | succ m =>
        have := ih (by omega : k < m) (occAt_cons_succ.mp hp) (occAt_cons_succ.mp hq)
        rw [countOcc_cons]
        omega

theorem countOcc_eq_zero_iff : ∀ {s : List Char}, countOcc s = 0 ↔ ∀ p, ¬ occAt s p := by
  intro s
  induction s with
  | nil => simp [countOcc]; intro p; exact occAt_nil p
  | cons a t ih =>
    rw [countOcc_cons]
    by_cases hc : ((a :: t).take 4) = CPR_SEQ
    · rw [if_pos hc]
      constructor
      · intro h; exact absurd h (by omega)
      · intro h; exact absurd (occAt_zero.mpr hc) (h 0)
    · rw [if_neg hc, Nat.zero_add, ih]
      constructor
      · intro h p
        cases p with
        | zero => intro hocc; exact hc (occAt_zero.mp hocc)
        | succ m => intro hocc; exact h m (occAt_cons_succ.mp hocc)
      · intro h q hq
        exact h (q + 1) (occAt_cons_succ.mpr hq)

/-! ### A batch one-pass removal specification

`scrub1` removes CPR occurrences of a whole string left to right in one
pass (the scan resumes after each removed occurrence; text before an
occurrence is never rejoined with text after it). It is the batch
counterpart of the streaming removal performed by `notifyData`. -/

def scrub1 (s : List Char) : List Char × Nat :=
  match h : findCPR s with
  | none => (s, 0)
  | some i =>
    let r := scrub1 (s.drop (i + 4))
    (s.take i ++ r.1, r.2 + 1)
termination_by s.length
decreasing_by
  have := occAt_len (findCPR_some_occ h)
  simp [List.length_drop]
  omega

theorem scrub1_of_none {s : List Char} (h : findCPR s = none) : scrub1 s = (s, 0) := by
  rw [scrub1.eq_def]
  split
  · rfl
  · rename_i i hi; rw [h] at hi; cases hi

theorem scrub1_of_some {s : List Char} {i : Nat} (h : findCPR s = some i) :
    scrub1 s = (s.take i ++ (scrub1 (s.drop (i + 4))).1, (scrub1 (s.drop (i + 4))).2 + 1) := by
  rw [scrub1.eq_def]
  split
  · rename_i hn; rw [h] at hn; cases hn
  · rename_i j hj
    rw [h] at hj
    cases hj
    rfl

/-- If no CPR occurrence of `u ++ y` starts inside `u`, the one-pass
removal passes `u` through untouched and continues on `y`. -/
theorem scrub1_commit {u y : List Char}
    (h : ∀ p, p < u.length → ¬ occAt (u ++ y) p) :
    scrub1 (u ++ y) = (u ++ (scrub1 y).1, (scrub1 y).2) := by
  cases hf : findCPR y with
  | none =>
    have hnone : findCPR (u ++ y) = none := by
      rw [findCPR_none_iff]
      intro p hocc
      by_cases hpu : p < u.length
      · exact h p hpu hocc
      · have hshift : occAt y (p - u.length) := by
          have hs := occAt_append_shift (u := u) (x := y) (q := p - u.length)
          rw [show u.length + (p - u.length) = p from by omega] at hs
          exact hs.mp hocc
        exact (findCPR_none_iff.mp hf) _ hshift
    rw [scrub1_of_none hnone, scrub1_of_none hf]
  | some q =>
    have hocc : occAt (u ++ y) (u.length + q) :=
      occAt_append_shift.mpr (findCPR_some_occ hf)
    have hleast : ∀ j, j < u.length + q → ¬ occAt (u ++ y) j := by
      intro j hj hocc'
      by_cases hju : j < u.length
      · exact h j hju hocc'
      · have hshift : occAt y (j - u.length) := by
          have hs := occAt_append_shift (u := u) (x := y) (q := j - u.length)
          rw [show u.length + (j - u.length) = j from by omega] at hs
          exact hs.mp hocc'
        exact findCPR_some_least hf _ (by omega) hshift
    have hfind : findCPR (u ++ y) = some (u.length + q) := findCPR_eq_some_of hocc hleast
    rw [scrub1_of_some hfind, scrub1_of_some hf, Nat.add_assoc, List.drop_append,
      List.take_append, List.append_assoc]

/-! ### Event-trace bookkeeping -/

theorem fwdConcat_append (e1 e2 : List IEvent) :
    fwdConcat (e1 ++ e2) = fwdConcat e1 ++ fwdConcat e2 := by
  simp [fwdConcat]

theorem fwdConcat_cons_resp (t : List Char) (es : List IEvent) :
    fwdConcat (IEvent.resp t :: es) = fwdConcat es := by
  simp [fwdConcat]

theorem fwdConcat_flushSegment (t : List Char) : fwdConcat (flushSegment t) = t := by
  unfold flushSegment
  split
  · rename_i h; subst h; simp [fwdConcat]
  · split <;> simp [fwdConcat]

theorem respPayloads_append (e1 e2 : List IEvent) :
    respPayloads (e1 ++ e2) = respPayloads e1 ++ respPayloads e2 := by
  simp [respPayloads]

theorem respPayloads_cons_resp (t : List Char) (es : List IEvent) :
    respPayloads (IEvent.resp t :: es) = t :: respPayloads es := by
  simp [respPayloads]

theorem respPayloads_flushSegment (t : List Char) : respPayloads (flushSegment t) = [] := by
  unfold flushSegment
  split
  · simp [respPayloads]
  · split <;> simp [respPayloads]

theorem dataConcat_append (e1 e2 : List IEvent) :
    dataConcat (e1 ++ e2) = dataConcat e1 ++ dataConcat e2 := by
  simp [dataConcat]

theorem dataConcat_flushSegment_of_noMatch {t : List Char} (h : promptMatch t = false) :
    dataConcat (flushSegment t) = t := by
  unfold flushSegment
  split
  · rename_i ht; subst ht; simp [dataConcat]
  · split
    · rename_i hm; rw [h] at hm; cases hm
    · simp [dataConcat]

/-! ### The CPR-removal loop against the batch specification -/

theorem cprLoop_of_none {fuel : Nat} {buf : List Char} (h : findCPR buf = none) :
    cprLoop fuel buf = ([], buf) := by
  cases fuel with
  | zero => rfl
  | succ n => simp [cprLoop, h]

theorem cprLoop_post : ∀ (fuel : Nat) (buf : List Char), buf.length ≤ fuel →
    findCPR (cprLoop fuel buf).2 = none := by
  intro fuel
  induction fuel with
  | zero =>
    intro buf hb
    have hnil : buf = [] := List.length_eq_zero.mp (by omega)
    subst hnil
    simp [cprLoop, findCPR]
  | succ n ih =>
    intro buf hb
    cases hf : findCPR buf with
    | none => simp [cprLoop, hf]
    | some i =>
      have hlen := occAt_len (findCPR_some_occ hf)
      have hrest : (buf.drop (i + 4)).length ≤ n := by
        simp [List.length_drop]; omega
      simpa [cprLoop, hf] using ih (buf.drop (i + 4)) hrest

theorem cprLoop_resp : ∀ (fuel : Nat) (buf : List Char),
    ∀ t ∈ respPayloads (cprLoop fuel buf).1, t = CPR_RESP := by
  intro fuel
  induction fuel with
  | zero => intro buf t ht; simp [cprLoop, respPayloads] at ht
  | succ n ih =>
    intro buf t ht
    cases hf : findCPR buf with
    | none => rw [cprLoop_of_none hf] at ht; simp [respPayloads] at ht
    | some i =>
      simp only [cprLoop, hf] at ht
      rw [respPayloads_append, respPayloads_flushSegment, List.nil_append,
        respPayloads_cons_resp] at ht
      rcases List.mem_cons.mp ht with h | h
      · exact h
      · exact ih (buf.drop (i + 4)) t h

theorem cprLoop_scrub : ∀ (fuel : Nat) (buf x : List Char), buf.length ≤ fuel →
    scrub1 (buf ++ x) =
      (fwdConcat (cprLoop fuel buf).1 ++ (scrub1 ((cprLoop fuel buf).2 ++ x)).1,
       (respPayloads (cprLoop fuel buf).1).length + (scrub1 ((cprLoop fuel buf).2 ++ x)).2) := by
  intro fuel
  induction fuel with
  | zero =>
    intro buf x hb
    have hnil : buf = [] := List.length_eq_zero.mp (by omega)
    subst hnil
    simp [cprLoop, fwdConcat, respPayloads]
  | succ n ih =>
    intro buf x hb
    cases hf : findCPR buf with
    | none =>
      rw [cprLoop_of_none hf]
      simp [fwdConcat, respPayloads]
    | some i =>
      have hocc := findCPR_some_occ hf
      have hlen := occAt_len hocc
      have hrest : (buf.drop (i + 4)).length ≤ n := by
        simp [List.length_drop]; omega
      have hfind : findCPR (buf ++ x) = some i := by
        apply findCPR_eq_some_of (occAt_append_left hocc)
        intro j hj hocc'
        exact findCPR_some_least hf j hj
          ((occAt_append_iff_of_le (by omega)).mp hocc')
      rw [scrub1_of_some hfind,
        List.take_append_of_le_length (by omega),
        List.drop_append_of_le_length (by omega)]
      simp only [cprLoop, hf]
      rw [fwdConcat_append, fwdConcat_flushSegment, fwdConcat_cons_resp,
        respPayloads_append, respPayloads_flushSegment, List.nil_append,
        respPayloads_cons_resp, ih (buf.drop (i + 4)) x hrest]
      simp only [Prod.mk.injEq, List.length_cons]
      constructor
      · simp [List.append_assoc]
      · omega

/-! ### The two flush rules -/

theorem findCPR_drop_none {s : List Char} (h : findCPR s = none) (k : Nat) :
    findCPR (s.drop k) = none := by
  rw [findCPR_none_iff]
  intro q hq
  exact findCPR_none_iff.mp h (k + q) (occAt_drop.mp hq)

theorem ruleTail_resp (b : List Char) : respPayloads (ruleTail b).1 = [] := by
  unfold ruleTail
  split
  · exact respPayloads_flushSegment _
  · simp [respPayloads]

theorem ruleNoEsc_resp (b : List Char) : respPayloads (ruleNoEsc b).1 = [] := by
  unfold ruleNoEsc
  split
  · exact respPayloads_flushSegment _
  · simp [respPayloads]

theorem ruleTail_none {b : List Char} (h : findCPR b = none) :
    findCPR (ruleTail b).2 = none := by
  unfold ruleTail
  split
  · exact findCPR_drop_none h _
  · exact h

theorem ruleNoEsc_none {b : List Char} (h : findCPR b = none) :
    findCPR (ruleNoEsc b).2 = none := by
  unfold ruleNoEsc
  split
  · simp [findCPR]
  · exact h

theorem ruleTail_len (b : List Char) : (ruleTail b).2.length ≤ MAX_TAIL := by
  unfold ruleTail
  split
  · rename_i h; simp [List.length_drop]; omega
  · rename_i h; simp; omega

theorem ruleNoEsc_len (b : List Char) : (ruleNoEsc b).2.length ≤ b.length := by
  unfold ruleNoEsc
  split
  · simp
  · simp

theorem ruleNoEsc_esc (b : List Char) :
    noEscL (ruleNoEsc b).2 = true → (ruleNoEsc b).2 = [] := by
  unfold ruleNoEsc
  split
  · intro _; rfl
  · rename_i h
    intro hesc
    rcases not_and_or.mp h with h1 | h2
    · simpa using h1
    · exact absurd hesc h2

theorem ruleTail_scrub {b : List Char} (hb : findCPR b = none) (x : List Char) :
    scrub1 (b ++ x) =
      (fwdConcat (ruleTail b).1 ++ (scrub1 ((ruleTail b).2 ++ x)).1,
       (scrub1 ((ruleTail b).2 ++ x)).2) := by
  unfold ruleTail
  split
  · rename_i h3
    have h16 : MAX_TAIL < b.length := h3
    simp only [fwdConcat_flushSegment]
    have hsplit := (List.take_append_drop (b.length - MAX_TAIL) b).symm
    conv_lhs => rw [hsplit]
    rw [List.append_assoc]
    apply scrub1_commit
    intro p hp hocc
    rw [← List.append_assoc, ← hsplit] at hocc
    have hple : p + 4 ≤ b.length := by
      simp [List.length_take, MAX_TAIL] at hp
      have h16' : (16 : Nat) < b.length := h16
      omega
    exact findCPR_none_iff.mp hb p ((occAt_append_iff_of_le hple).mp hocc)
  · simp [fwdConcat]

theorem ruleNoEsc_scrub (b : List Char) (x : List Char) :
    scrub1 (b ++ x) =
      (fwdConcat (ruleNoEsc b).1 ++ (scrub1 ((ruleNoEsc b).2 ++ x)).1,
       (scrub1 ((ruleNoEsc b).2 ++ x)).2) := by
  unfold ruleNoEsc
  split
  · rename_i h4
    simp only [fwdConcat_flushSegment, List.nil_append]
    apply scrub1_commit
    intro p hp hocc
    have hesc := esc_mem_of_occAt_append hp hocc
    obtain ⟨-, h4b⟩ := h4
    simp [noEscL, List.all_eq_true] at h4b
    exact h4b ESC hesc rfl
  · simp [fwdConcat]

/-! ### notifyData against the batch specification -/

theorem notifyData_scrub (s : IState) (d x : List Char) :
    scrub1 ((s.buffer ++ d) ++ x) =
      (fwdConcat (notifyData s d).2 ++ (scrub1 ((notifyData s d).1.buffer ++ x)).1,
       (respPayloads (notifyData s d).2).length + (scrub1 ((notifyData s d).1.buffer ++ x)).2) := by
  have hloop := cprLoop_scrub (s.buffer ++ d).length (s.buffer ++ d) x le_rfl
  have hpost := cprLoop_post (s.buffer ++ d).length (s.buffer ++ d) le_rfl
  have htail := ruleTail_scrub hpost x
  have hnoesc :=
    ruleNoEsc_scrub (ruleTail (cprLoop (s.buffer ++ d).length (s.buffer ++ d)).2).2 x
  simp only [notifyData]
  rw [hloop, htail, hnoesc]
  rw [fwdConcat_append, fwdConcat_append, respPayloads_append, respPayloads_append,
    ruleTail_resp, ruleNoEsc_resp]
  simp only [Prod.mk.injEq, List.append_nil]
  constructor
  · simp [List.append_assoc]
  · trivial

theorem notifyData_resp (s : IState) (d : List Char) :
    ∀ t ∈ respPayloads (notifyData s d).2, t = CPR_RESP := by
  intro t ht
  simp only [notifyData] at ht
  rw [respPayloads_append, respPayloads_append] at ht
  simp only [ruleTail_resp, ruleNoEsc_resp, List.append_nil] at ht
  exact cprLoop_resp _ _ t ht

theorem notifyData_buffer_spec (s : IState) (d : List Char) :
    findCPR (notifyData s d).1.buffer = none ∧
    (notifyData s d).1.buffer.length ≤ MAX_TAIL ∧
    (noEscL (notifyData s d).1.buffer = true → (notifyData s d).1.buffer = []) := by
  have hpost := cprLoop_post (s.buffer ++ d).length (s.buffer ++ d) le_rfl
  simp only [notifyData]
  refine ⟨?_, ?_, ?_⟩
  · exact ruleNoEsc_none (ruleTail_none hpost)
  · exact le_trans (ruleNoEsc_len _) (ruleTail_len _)
  · exact ruleNoEsc_esc _

/-! ### Processing a chunk sequence -/

theorem runFrom_scrub : ∀ (ds : List (List Char)) (s : IState) (x : List Char),
    scrub1 ((s.buffer ++ chunksConcat ds) ++ x) =
      (fwdConcat (runFrom s ds).2 ++ (scrub1 ((runFrom s ds).1.buffer ++ x)).1,
       (respPayloads (runFrom s ds).2).length + (scrub1 ((runFrom s ds).1.buffer ++ x)).2) := by
  intro ds
  induction ds with
  | nil =>
    intro s x
    simp [runFrom, chunksConcat, fwdConcat, respPayloads]
  | cons d ds ih =>
    intro s x
    have key := notifyData_scrub s d (chunksConcat ds ++ x)
    have ihx := ih (notifyData s d).1 x
    simp only [runFrom]
    have hconcat : chunksConcat (d :: ds) = d ++ chunksConcat ds := by simp [chunksConcat]
    rw [hconcat]
    have hassoc : (s.buffer ++ (d ++ chunksConcat ds)) ++ x
        = (s.buffer ++ d) ++ (chunksConcat ds ++ x) := by simp [List.append_assoc]
    rw [hassoc, key]
    have hassoc2 : (notifyData s d).1.buffer ++ (chunksConcat ds ++ x)
        = ((notifyData s d).1.buffer ++ chunksConcat ds) ++ x := by
      simp [List.append_assoc]
    rw [hassoc2, ihx]
    rw [fwdConcat_append, respPayloads_append]
    simp only [Prod.mk.injEq]
    constructor
    · simp [List.append_assoc]
    · simp [List.length_append]; omega

theorem runFrom_resp : ∀ (ds : List (List Char)) (s : IState),
    ∀ t ∈ respPayloads (runFrom s ds).2, t = CPR_RESP := by
  intro ds
  induction ds with
  | nil => intro s t ht; simp [runFrom, respPayloads] at ht
  | cons d ds ih =>
    intro s t ht
    simp only [runFrom] at ht
    rw [respPayloads_append] at ht
    rcases List.mem_append.mp ht with h | h
    · exact notifyData_resp s d t h
    · exact ih (notifyData s d).1 t h

theorem runFrom_buffer_none : ∀ (ds : List (List Char)) (s : IState),
    findCPR s.buffer = none → findCPR (runFrom s ds).1.buffer = none := by
  intro ds
  induction ds with
  | nil => intro s h; simpa [runFrom] using h
  | cons d ds ih =>
    intro s h
    simp only [runFrom]
    exact ih (notifyData s d).1 (notifyData_buffer_spec s d).1

/-! ### Claim C1 -/

/-- Claim C1: for every sequence of chunks whose concatenation contains
exactly one occurrence of the cursor-position query `"\x1b[6n"`, however
the stream is split across chunk boundaries, the Stream Interceptor
writes the fixed synthetic response `"\x1b[24;1R"` back to the child
exactly once, and the query bytes are excised from the stream entering
the forward path: the concatenation of all forwarded text (data and
prompt deliveries) followed by the retained buffer equals the input with
the query occurrence removed, so the raw query bytes are never delivered
to the data callbacks. -/
theorem C1_single_query_intercepted (cs : List (List Char))
    (h : countOcc (chunksConcat cs) = 1) :
    ∃ u v : List Char,
      chunksConcat cs = u ++ CPR_SEQ ++ v ∧
      respPayloads (runIntercept cs).2 = [CPR_RESP] ∧
      fwdConcat (runIntercept cs).2 ++ (runIntercept cs).1.buffer = u ++ v := by
  simp only [runIntercept]
  cases hA : findCPR (chunksConcat cs) with
  | none =>
    exfalso
    have h0 : countOcc (chunksConcat cs) = 0 :=
      countOcc_eq_zero_iff.mpr (findCPR_none_iff.mp hA)
    omega
  | some i =>
    have hocc := findCPR_some_occ hA
    have hrest0 : findCPR ((chunksConcat cs).drop (i + 4)) = none := by
      rw [findCPR_none_iff]
      intro q hq
      have h2 : occAt (chunksConcat cs) (i + 4 + q) := occAt_drop.mp hq
      have := countOcc_two_of_occ (by omega : i < i + 4 + q) hocc h2
      omega
    have hscrub : scrub1 (chunksConcat cs) =
        ((chunksConcat cs).take i ++ (chunksConcat cs).drop (i + 4), 1) := by
      rw [scrub1_of_some hA, scrub1_of_none hrest0]
    have sim := runFrom_scrub cs ⟨[]⟩ []
    have hbnone : findCPR (runFrom ⟨[]⟩ cs).1.buffer = none :=
      runFrom_buffer_none cs ⟨[]⟩ (by simp [findCPR])
    simp only [List.append_nil, List.nil_append] at sim
    rw [scrub1_of_none hbnone, hscrub] at sim
    simp only [Prod.mk.injEq] at sim
    obtain ⟨hfwd, hcount⟩ := sim
    refine ⟨(chunksConcat cs).take i, (chunksConcat cs).drop (i + 4),
      occAt_decomp hocc, ?_, hfwd.symm⟩
    have hlen1 : (respPayloads (runFrom ⟨[]⟩ cs).2).length = 1 := by omega
    obtain ⟨a, ha⟩ := List.length_eq_one.mp hlen1
    have haCPR : a = CPR_RESP :=
      runFrom_resp cs ⟨[]⟩ a (by rw [ha]; exact List.mem_singleton_self a)
    rw [ha, haCPR]

/-- Witness for C1 at the concrete chunk sequence
`["hi\x1b", "[6", "n!"]`, which splits a single query across all three
chunk boundaries. -/
theorem C1_single_query_intercepted_witness :
    countOcc (chunksConcat ["hi\x1b".toList, "[6".toList, "n!".toList]) = 1 ∧
    (∃ u v : List Char,
      chunksConcat ["hi\x1b".toList, "[6".toList, "n!".toList] = u ++ CPR_SEQ ++ v ∧
      respPayloads (runIntercept ["hi\x1b".toList, "[6".toList, "n!".toList]).2 = [CPR_RESP] ∧
      fwdConcat (runIntercept ["hi\x1b".toList, "[6".toList, "n!".toList]).2 ++
        (runIntercept ["hi\x1b".toList, "[6".toList, "n!".toList]).1.buffer = u ++ v) :=
  ⟨by decide, C1_single_query_intercepted _ (by decide)⟩

/-! ### Substring reasoning for the prompt patterns -/

/-- `SubSeg t s` : `t` is a contiguous segment of `s`. -/
def SubSeg (t s : List Char) : Prop := ∃ a b, s = a ++ t ++ b

theorem containsSub_iff : ∀ {pat s : List Char},
    containsSub pat s = true ↔ ∃ a b, s = a ++ pat ++ b := by
  have hstarts : ∀ (pat s : List Char), startsWithB pat s = true ↔ ∃ r, s = pat ++ r := by
    intro pat
    induction pat with
    | nil => intro s; simp [startsWithB]
    | cons p ps ih =>
      intro s
      cases s with
      | nil => simp [startsWithB]
      | cons b bs =>
        simp only [startsWithB, Bool.and_eq_true, beq_iff_eq, ih, List.cons_append]
        constructor
        · rintro ⟨rfl, r, rfl⟩
          exact ⟨r, rfl⟩
        · rintro ⟨r, hr⟩
          injection hr with h1 h2
          exact ⟨h1.symm, r, h2⟩
  intro pat s
  induction s with
  | nil =>
    simp only [containsSub, hstarts]
    constructor
    · rintro ⟨r, hr⟩
      exact ⟨[], r, by simpa using hr⟩
    · rintro ⟨a, b, hab⟩
      have ha : a = [] ∧ pat ++ b = [] := by
        have := hab.symm
        simpa [List.append_eq_nil] using this
      obtain ⟨rfl, h2⟩ := ha
      obtain ⟨rfl, rfl⟩ := List.append_eq_nil.mp h2
      exact ⟨[], rfl⟩
  | cons c cs ih =>
    simp only [containsSub, Bool.or_eq_true, hstarts, ih]
    constructor
    · rintro (⟨r, hr⟩ | ⟨a, b, hab⟩)
      · exact ⟨[], r, by simpa using hr⟩
      · exact ⟨c :: a, b, by simp [hab]⟩
    · rintro ⟨a, b, hab⟩
      cases a with
      | nil => exact Or.inl ⟨b, by simpa using hab⟩
      | cons a0 as =>
        injection hab with h1 h2
        exact Or.inr ⟨as, b, h2⟩

theorem containsSub_mono {pat t s : List Char} (h : containsSub pat t = true)
    (hsub : SubSeg t s) : containsSub pat s = true := by
  rw [containsSub_iff] at h ⊢
  obtain ⟨a, b, rfl⟩ := hsub
  obtain ⟨c, d, hcd⟩ := h
  exact ⟨a ++ c, d ++ b, by simp [hcd, List.append_assoc]⟩

theorem promptMatch_mono {t s : List Char} (hsub : SubSeg t s)
    (h : promptMatch t = true) : promptMatch s = true := by
  simp only [promptMatch, List.any_eq_true] at h ⊢
  obtain ⟨pat, hpat, hc⟩ := h
  refine ⟨pat, hpat, ?_⟩
  apply containsSub_mono hc
  obtain ⟨a, b, rfl⟩ := hsub
  exact ⟨lowerL a, lowerL b, by simp [lowerL]⟩

/-! ### Escape-free streams -/

theorem noEscL_append {a b : List Char} :
    noEscL (a ++ b) = true ↔ noEscL a = true ∧ noEscL b = true := by
  simp [noEscL, List.all_append]

theorem noEscL_take {s : List Char} (n : Nat) (h : noEscL s = true) :
    noEscL (s.take n) = true := by
  simp only [noEscL, List.all_eq_true] at h ⊢
  intro c hc
  exact h c (List.take_subset n s hc)

theorem noEscL_drop {s : List Char} (n : Nat) (h : noEscL s = true) :
    noEscL (s.drop n) = true := by
  simp only [noEscL, List.all_eq_true] at h ⊢
  intro c hc
  exact h c (List.drop_subset n s hc)

theorem ruleTail_pos {b : List Char} (h : MAX_TAIL < b.length) :
    ruleTail b = (flushSegment (b.take (b.length - MAX_TAIL)), b.drop (b.length - MAX_TAIL)) := by
  unfold ruleTail
  rw [if_pos h]

theorem ruleTail_neg {b : List Char} (h : ¬ MAX_TAIL < b.length) :
    ruleTail b = ([], b) := by
  unfold ruleTail
  rw [if_neg h]

theorem ruleNoEsc_pos {b : List Char} (h : b ≠ [] ∧ noEscL b = true) :
    ruleNoEsc b = (flushSegment b, []) := by
  unfold ruleNoEsc
  rw [if_pos h]

theorem ruleNoEsc_nil : ruleNoEsc [] = ([], []) := by
  unfold ruleNoEsc
  rw [if_neg (by simp)]

theorem notifyData_noEsc {d : List Char} (hesc : noEscL d = true)
    (hp : ∀ t, SubSeg t d → promptMatch t = false) :
    (notifyData ⟨[]⟩ d).1 = ⟨[]⟩ ∧ dataConcat (notifyData ⟨[]⟩ d).2 = d := by
  have hfind : findCPR d = none := noEscL_findCPR hesc
  simp only [notifyData, List.nil_append]
  rw [cprLoop_of_none hfind]
  by_cases h16 : MAX_TAIL < d.length
  · rw [ruleTail_pos h16]
    have htail : (d.drop (d.length - MAX_TAIL)) ≠ [] := by
      have h16' : (16 : Nat) < d.length := h16
      rw [Ne, List.drop_eq_nil_iff]
      simp only [MAX_TAIL]
      omega
    rw [ruleNoEsc_pos ⟨htail, noEscL_drop _ hesc⟩]
    constructor
    · rfl
    · have hfront : promptMatch (d.take (d.length - MAX_TAIL)) = false :=
        hp _ ⟨[], d.drop (d.length - MAX_TAIL), by simp⟩
      have htl : promptMatch (d.drop (d.length - MAX_TAIL)) = false :=
        hp _ ⟨d.take (d.length - MAX_TAIL), [], by simp⟩
      simp only [List.nil_append, dataConcat_append,
        dataConcat_flushSegment_of_noMatch hfront, dataConcat_flushSegment_of_noMatch htl]
      simp [dataConcat, List.take_append_drop]
  · rw [ruleTail_neg h16]
    by_cases hnil : d = []
    · subst hnil
      rw [ruleNoEsc_nil]
      simp [dataConcat]
    · rw [ruleNoEsc_pos ⟨hnil, hesc⟩]
      constructor
      · rfl
      · have hd : promptMatch d = false := hp d ⟨[], [], by simp⟩
        simp only [List.nil_append, List.append_nil]
        exact dataConcat_flushSegment_of_noMatch hd

theorem runFrom_noEsc : ∀ (ds : List (List Char)),
    noEscL (chunksConcat ds) = true →
    (∀ t, SubSeg t (chunksConcat ds) → promptMatch t = false) →
    (runFrom ⟨[]⟩ ds).1 = ⟨[]⟩ ∧ dataConcat (runFrom ⟨[]⟩ ds).2 = chunksConcat ds := by
  intro ds
  induction ds with
  | nil => intro _ _; simp [runFrom, chunksConcat, dataConcat]
  | cons d ds ih =>
    intro hesc hp
    have hcc : chunksConcat (d :: ds) = d ++ chunksConcat ds := by simp [chunksConcat]
    rw [hcc] at hesc hp
    have hescd : noEscL d = true := (noEscL_append.mp hesc).1
    have hescds : noEscL (chunksConcat ds) = true := (noEscL_append.mp hesc).2
    have hpd : ∀ t, SubSeg t d → promptMatch t = false := by
      rintro t ⟨a, b, hab⟩
      exact hp t ⟨a, b ++ chunksConcat ds, by simp [hab, List.append_assoc]⟩
    have hpds : ∀ t, SubSeg t (chunksConcat ds) → promptMatch t = false := by
      rintro t ⟨a, b, hab⟩
      exact hp t ⟨d ++ a, b, by simp [hab, List.append_assoc]⟩
    obtain ⟨hstate, hdata⟩ := notifyData_noEsc hescd hpd
    obtain ⟨hstate2, hdata2⟩ := ih hescds hpds
    simp only [runFrom]
    rw [hstate]
    refine ⟨hstate2, ?_⟩
    rw [dataConcat_append, hdata, hdata2, hcc]

/-! ### Claim C2 -/

/-- Counterexample to claim C2 as stated: the single chunk `"(y/n)"` is
free of the escape-introducer byte, yet after it is flushed the data
callbacks have received nothing (the text was diverted to the prompt
callbacks), so the data-callback output does not reconstruct the input. -/
theorem C2_counterexample :
    noEscL (chunksConcat [("(y/n)".toList)]) = true ∧
    (runIntercept [("(y/n)".toList)]).1.buffer = [] ∧
    dataConcat (runIntercept [("(y/n)".toList)]).2 ≠ chunksConcat [("(y/n)".toList)] := by
  decide

/-- Claim C2 (amended): for every sequence of chunks whose concatenation
contains no escape-introducer byte and matches none of the fixed
interactive-prompt patterns, once all chunks are flushed the
concatenation of all text delivered to the data callbacks equals the
input concatenation exactly, and the Interception Buffer is empty. -/
theorem C2_escape_free_passthrough (cs : List (List Char))
    (hesc : noEscL (chunksConcat cs) = true)
    (hp : promptMatch (chunksConcat cs) = false) :
    dataConcat (runIntercept cs).2 = chunksConcat cs ∧
    (runIntercept cs).1.buffer = [] := by
  have hsub : ∀ t, SubSeg t (chunksConcat cs) → promptMatch t = false := by
    intro t hsubseg
    cases hpm : promptMatch t with
    | false => rfl
    | true => exact absurd (promptMatch_mono hsubseg hpm) (by simp [hp])
  obtain ⟨h1, h2⟩ := runFrom_noEsc cs hesc hsub
  simp only [runIntercept]
  exact ⟨h2, by rw [h1]⟩

/-- Witness for the amended C2 at the chunks `["hello ", "world"]`. -/
theorem C2_escape_free_passthrough_witness :
    noEscL (chunksConcat ["hello ".toList, "world".toList]) = true ∧
    promptMatch (chunksConcat ["hello ".toList, "world".toList]) = false ∧
    (dataConcat (runIntercept ["hello ".toList, "world".toList]).2 =
        chunksConcat ["hello ".toList, "world".toList] ∧
      (runIntercept ["hello ".toList, "world".toList]).1.buffer = []) :=
  ⟨by decide, by decide, C2_escape_free_passthrough _ (by decide) (by decide)⟩

/-! ### Data deliveries never match a prompt pattern -/

theorem flushSegment_data {t u : List Char} (h : IEvent.data u ∈ flushSegment t) :
    promptMatch u = false := by
  unfold flushSegment at h
  split at h
  · simp at h
  · split at h
    · simp at h
    · rename_i h1 h2
      simp at h
      subst h
      simpa using h2

theorem cprLoop_data : ∀ (fuel : Nat) (buf : List Char) (u : List Char),
    IEvent.data u ∈ (cprLoop fuel buf).1 → promptMatch u = false := by
  intro fuel
  induction fuel with
  | zero => intro buf u h; simp [cprLoop] at h
  | succ n ih =>
    intro buf u h
    cases hf : findCPR buf with
    | none => rw [cprLoop_of_none hf] at h; simp at h
    | some i =>
      simp only [cprLoop, hf] at h
      rcases List.mem_append.mp h with h1 | h1
      · exact flushSegment_data h1
      · rcases List.mem_cons.mp h1 with h2 | h2
        · cases h2
        · exact ih (buf.drop (i + 4)) u h2

theorem ruleTail_data {b u : List Char} (h : IEvent.data u ∈ (ruleTail b).1) :
    promptMatch u = false := by
  unfold ruleTail at h
  split at h
  · exact flushSegment_data h
  · simp at h

theorem ruleNoEsc_data {b u : List Char} (h : IEvent.data u ∈ (ruleNoEsc b).1) :
    promptMatch u = false := by
  unfold ruleNoEsc at h
  split at h
  · exact flushSegment_data h
  · simp at h

theorem notifyData_data {s : IState} {d u : List Char}
    (h : IEvent.data u ∈ (notifyData s d).2) : promptMatch u = false := by
  simp only [notifyData] at h
  rcases List.mem_append.mp h with h1 | h1
  · rcases List.mem_append.mp h1 with h2 | h2
    · exact cprLoop_data _ _ u h2
    · exact ruleTail_data h2
  · exact ruleNoEsc_data h1

theorem runFrom_data : ∀ (ds : List (List Char)) (s : IState) (u : List Char),
    IEvent.data u ∈ (runFrom s ds).2 → promptMatch u = false := by
  intro ds
  induction ds with
  | nil => intro s u h; simp [runFrom] at h
  | cons d ds ih =>
    intro s u h
    simp only [runFrom] at h
    rcases List.mem_append.mp h with h1 | h1
    · exact notifyData_data h1
    · exact ih (notifyData s d).1 u h1

/-! ### Claim C5 -/

/-- Claim C5: text tested by the Stream Interceptor that matches one of
the fixed interactive-prompt patterns (for example, text containing
`"(y/n)"`) is never delivered to the ordinary data callbacks; instead a
single Prompt Descriptor is delivered to the prompt callbacks, with
options `{Yes, No}` and kind `"confirmation"`, except that text
containing `"press return"`, `"press enter"` or `"press any key"`
(case-insensitively) yields options `{Continue}` and kind `"continue"`.
Moreover, across any run, every text actually delivered to the data
callbacks matches none of the patterns. -/
theorem C5_prompt_classification :
    (∀ t : List Char, containsSub "(y/n)".toList (lowerL t) = true → promptMatch t = true) ∧
    (∀ t : List Char, promptMatch t = true →
      flushSegment t = [IEvent.prompt t (mkPrompt t)] ∧
      (mkPrompt t).options = (if contMatch t then ["Continue"] else ["Yes", "No"]) ∧
      (mkPrompt t).ptype = (if contMatch t then "continue" else "confirmation")) ∧
    (∀ (cs : List (List Char)) (u : List Char),
      IEvent.data u ∈ (runIntercept cs).2 → promptMatch u = false) := by
  refine ⟨?_, ?_, ?_⟩
  · intro t h
    simp only [promptMatch, List.any_eq_true]
    exact ⟨"(y/n)".toList, by simp [promptPatterns], h⟩
  · intro t h
    by_cases ht : t = []
    · subst ht
      exact absurd h (by decide)
    · refine ⟨?_, rfl, rfl⟩
      unfold flushSegment
      rw [if_neg ht, if_pos h]
  · intro cs u h
    exact runFrom_data cs ⟨[]⟩ u h

/-- Witness for C5 at the spec scenario text `"Apply changes? (y/n)\n"`. -/
theorem C5_prompt_classification_witness :
    promptMatch "Apply changes? (y/n)\n".toList = true ∧
    (flushSegment "Apply changes? (y/n)\n".toList =
        [IEvent.prompt "Apply changes? (y/n)\n".toList
          (mkPrompt "Apply changes? (y/n)\n".toList)] ∧
      (mkPrompt "Apply changes? (y/n)\n".toList).options =
        (if contMatch "Apply changes? (y/n)\n".toList then ["Continue"] else ["Yes", "No"]) ∧
      (mkPrompt "Apply changes? (y/n)\n".toList).ptype =
        (if contMatch "Apply changes? (y/n)\n".toList then "continue" else "confirmation")) ∧
    (mkPrompt "Apply changes? (y/n)\n".toList).options = ["Yes", "No"] ∧
    (mkPrompt "Apply changes? (y/n)\n".toList).ptype = "confirmation" :=
  ⟨by decide, C5_prompt_classification.2.1 _ (by decide), by decide, by decide⟩

/-! ### Claim C9 -/

/-- Claim C9: after the Stream Interceptor finishes processing any arrived
chunk from any buffer state, the retained Interception Buffer contains no
complete cursor-position query sequence, its length never exceeds the
fixed 16-character tail bound, and it is empty whenever it contains no
escape-introducer byte. -/
theorem C9_buffer_invariants (s : IState) (d : List Char) :
    findCPR (notifyData s d).1.buffer = none ∧
    (notifyData s d).1.buffer.length ≤ MAX_TAIL ∧
    (noEscL (notifyData s d).1.buffer = true → (notifyData s d).1.buffer = []) :=
  notifyData_buffer_spec s d

/-- Witness for C9 at a concrete state and chunk (a buffer already holding
a partial query, receiving a long chunk). -/
theorem C9_buffer_invariants_witness :
    findCPR (notifyData ⟨"\x1b[6".toList⟩ "n tail that is long \x1b".toList).1.buffer = none ∧
    (notifyData ⟨"\x1b[6".toList⟩ "n tail that is long \x1b".toList).1.buffer.length ≤ MAX_TAIL ∧
    (noEscL (notifyData ⟨"\x1b[6".toList⟩ "n tail that is long \x1b".toList).1.buffer = true →
      (notifyData ⟨"\x1b[6".toList⟩ "n tail that is long \x1b".toList).1.buffer = []) :=
  C9_buffer_invariants ⟨"\x1b[6".toList⟩ "n tail that is long \x1b".toList

/-! ### The session coordinator lifecycle

State of the `AiderProcess` coordinator. `process` is the pty handle
(`null` or a session identifier), `live` the set of child processes that
actually exist at the OS level (to make "no leaked children" expressible),
`nextId` a supply of fresh session identifiers, `buffer` the Interception
Buffer. Fallible external calls (pipe writes, `kill()`, `pty.spawn`) are
modelled by boolean outcome parameters; each operation returns the new
state, the trace of externally visible events, and whether it threw. -/

structure CoordState where
  process : Option Nat
  currentModel : String
  live : List Nat
  nextId : Nat
  buffer : List Char
  deriving Repr, DecidableEq

/-- Externally visible lifecycle events: writes into the child's stdin,
the fixed grace delay, a successful kill, a successful spawn, and an
error-callback notification. -/
inductive LEvent where
  | writeChild (t : List Char)
  | delayMs (ms : Nat)
  | killEvt (id : Nat)
  | spawnEvt (id : Nat) (cols rows : Nat) (cwd : String)
  | errorCb (ctx : String)
  deriving Repr, DecidableEq

/-- Result of a lifecycle operation. -/
structure LResult where
  state : CoordState
  events : List LEvent
  threw : Bool
  deriving Repr, DecidableEq

/-- `EXTENSION_CONFIG.DEFAULT_MODEL` from `config/constants.ts`. -/
def DEFAULT_MODEL : String := "ollama/deepseek-coder-v2:16b"

/-- A freshly constructed coordinator (`new AiderProcess()`). -/
def initialCoord : CoordState := ⟨none, DEFAULT_MODEL, [], 0, []⟩

/-- The graceful-exit command written by `stop` (`'/exit\r'`). -/
def exitCmd : List Char := "/exit\r".toList

/-- Translation of `AiderProcess.stop`: no-op without a session; otherwise
write `/exit`, wait 1000 ms, then kill; on any error the catch block
kills (once more) and clears. `writeThrows` : the `/exit` write raises;
`killThrows1` : the first `kill()` call raises; `killThrows2` : the
second `kill()` call (the one inside the catch block, reached only when
the first kill raised) raises. An error raised by the kill inside the
catch block escapes `stop` with the session still referenced. -/
def stop (s : CoordState) (writeThrows killThrows1 killThrows2 : Bool) : LResult :=
  match s.process with
  | none => ⟨s, [], false⟩
  | some p =>
    if writeThrows then
      if killThrows1 then ⟨s, [], true⟩
      else ⟨{ s with process := none, live := s.live.erase p }, [LEvent.killEvt p], false⟩
    else
      if killThrows1 then
        if killThrows2 then ⟨s, [LEvent.writeChild exitCmd, LEvent.delayMs 1000], true⟩
        else ⟨{ s with process := none, live := s.live.erase p },
          [LEvent.writeChild exitCmd, LEvent.delayMs 1000, LEvent.killEvt p], false⟩
      else ⟨{ s with process := none, live := s.live.erase p },
        [LEvent.writeChild exitCmd, LEvent.delayMs 1000, LEvent.killEvt p], false⟩

/-- Translation of `AiderProcess.startWithSize`: stop any running session
first (an error there propagates before the model is updated), record the
model, then spawn at the given size; on success attach handlers and after
the initial 2000 ms delay write a carriage return; on spawn failure clear
the process reference, notify error callbacks and re-throw. -/
def startWithSize (s : CoordState) (model ws : String) (cols rows : Nat)
    (writeThrows killThrows1 killThrows2 spawnOk : Bool) : LResult :=
  let stopR :=
    if s.process.isSome then stop s writeThrows killThrows1 killThrows2
    else ⟨s, [], false⟩
  if stopR.threw then ⟨stopR.state, stopR.events, true⟩
  else
    let s1 := { stopR.state with currentModel := model }
    if spawnOk then
      let id := s1.nextId
      ⟨{ s1 with process := some id, live := id :: s1.live, nextId := id + 1 },
        stopR.events ++
          [LEvent.spawnEvt id cols rows ws, LEvent.delayMs 2000, LEvent.writeChild ['\r']],
        false⟩
    else
      ⟨{ s1 with process := none },
        stopR.events ++ [LEvent.errorCb "process_start"], true⟩

/-- The control bytes removed by `AiderProcess.sanitizeInput`
(the regex `/[\x00-\x08\x0B\x0C\x0E-\x1F\x7F]/g`). -/
def strippedChar (c : Char) : Bool :=
  c.toNat ≤ 8 || c.toNat == 11 || c.toNat == 12 ||
  (14 ≤ c.toNat && c.toNat ≤ 31) || c.toNat == 127

/-- Translation of `AiderProcess.sanitizeInput`. -/
def sanitizeInput (m : List Char) : List Char := m.filter (fun c => !(strippedChar c))

/-- Sanitization as the claim words it: remove every non-printable control
byte (0x00–0x1F & 0x7F) other than the line endings LF and CR. Stated
from the claim text, for comparison with `sanitizeInput`. -/
def specSanitize (m : List Char) : List Char :=
  m.filter (fun c => !((c.toNat < 32 || c.toNat == 127) && !(c == '\n') && !(c == '\r')))

/-- Translation of `AiderProcess.sendMessage`: throw `NotRunningError`
with no side effect when no session exists; otherwise write the sanitized
text followed by a carriage return (notifying error callbacks and
re-throwing when the write fails). -/
def sendMessage (s : CoordState) (m : List Char) (writeOk : Bool) : LResult :=
  match s.process with
  | none => ⟨s, [], true⟩
  | some _ =>
    if writeOk then ⟨s, [LEvent.writeChild (sanitizeInput m ++ ['\r'])], false⟩
    else ⟨s, [LEvent.errorCb "send_message"], true⟩

/-- State of `AiderChatViewProvider`: the Pending Start Request and the
owned coordinator. -/
structure ProviderState where
  pendingAiderStart : Option (String × String)
  aider : CoordState
  deriving Repr, DecidableEq

/-- Translation of `AiderChatViewProvider.handleWebviewReady`: when a
Pending Start Request exists and no session is running, call
`startWithSize` with the pending model and working directory at exactly
the reported size; clear the pending request only after `startWithSize`
returns without error (the clearing statement sits after the awaited call
inside the `try`, so a spawn failure leaves the request pending). -/
def handleWebviewReady (ps : ProviderState) (cols rows : Nat) (spawnOk : Bool) :
    ProviderState × List LEvent :=
  match ps.pendingAiderStart with
  | some pr =>
    if ps.aider.process = none then
      let r := startWithSize ps.aider pr.1 pr.2 cols rows false false false spawnOk
      if r.threw then (⟨ps.pendingAiderStart, r.state⟩, r.events)
      else (⟨none, r.state⟩, r.events)
    else (ps, [])
  | none => (ps, [])

/-! ### Claim C3 -/

/-- Claim C3: at most one child session exists at any time — when
startWithSize is invoked while a session is running (and the external
operations succeed), the running session is stopped and killed before the
new one is spawned (visible in the event order), and after the call
exactly one child is alive, with currentModel equal to the model just
passed. -/
theorem C3_single_session (s : CoordState) (p : Nat) (model ws : String)
    (cols rows : Nat) (hp : s.process = some p) (hl : s.live = [p]) :
    (startWithSize s model ws cols rows false false false true).threw = false ∧
    (startWithSize s model ws cols rows false false false true).state.process =
      some s.nextId ∧
    (startWithSize s model ws cols rows false false false true).state.live = [s.nextId] ∧
    (startWithSize s model ws cols rows false false false true).state.currentModel = model ∧
    (startWithSize s model ws cols rows false false false true).events =
      [LEvent.writeChild exitCmd, LEvent.delayMs 1000, LEvent.killEvt p,
       LEvent.spawnEvt s.nextId cols rows ws, LEvent.delayMs 2000,
       LEvent.writeChild ['\r']] := by
  simp [startWithSize, stop, hp, hl]

/-- Witness for C3: the spec scenario — `startWithSize("model-a", "/ws",
100, 30)` immediately followed by `startWithSize("model-b", "/ws", 100,
30)` yields exactly one kill of the first session before the second spawn
and leaves currentModel at `"model-b"` with a single live child. -/
theorem C3_single_session_witness :
    (startWithSize initialCoord "model-a" "/ws" 100 30 false false false true).state.process =
      some 0 ∧
    (startWithSize initialCoord "model-a" "/ws" 100 30 false false false true).state.live =
      [0] ∧
    ((startWithSize (startWithSize initialCoord "model-a" "/ws" 100 30
        false false false true).state "model-b" "/ws" 100 30 false false false true).threw =
      false ∧
    (startWithSize (startWithSize initialCoord "model-a" "/ws" 100 30
        false false false true).state "model-b" "/ws" 100 30 false false false
        true).state.process =
      some (startWithSize initialCoord "model-a" "/ws" 100 30
        false false false true).state.nextId ∧
    (startWithSize (startWithSize initialCoord "model-a" "/ws" 100 30
        false false false true).state "model-b" "/ws" 100 30 false false false
        true).state.live =
      [(startWithSize initialCoord "model-a" "/ws" 100 30
        false false false true).state.nextId] ∧
    (startWithSize (startWithSize initialCoord "model-a" "/ws" 100 30
        false false false true).state "model-b" "/ws" 100 30 false false false
        true).state.currentModel = "model-b" ∧
    (startWithSize (startWithSize initialCoord "model-a" "/ws" 100 30
        false false false true).state "model-b" "/ws" 100 30 false false false
        true).events =
      [LEvent.writeChild exitCmd, LEvent.delayMs 1000, LEvent.killEvt 0,
       LEvent.spawnEvt (startWithSize initialCoord "model-a" "/ws" 100 30
         false false false true).state.nextId 100 30 "/ws", LEvent.delayMs 2000,
       LEvent.writeChild ['\r']]) :=
  ⟨rfl, rfl,
    C3_single_session (startWithSize initialCoord "model-a" "/ws" 100 30
      false false false true).state 0 "model-b" "/ws" 100 30 rfl rfl⟩

/-! ### Claim C4 -/

/-- Counterexample to claim C4 as stated: with a Pending Start Request
present and no session running, when spawning throws the readiness signal
does not clear the request — it remains pending afterwards, so the
request is not "consumed and cleared exactly once" by the signal. -/
theorem C4_counterexample :
    (handleWebviewReady ⟨some ("m", "/ws"), initialCoord⟩ 80 24 false).1.pendingAiderStart =
      some ("m", "/ws") ∧
    (handleWebviewReady ⟨some ("m", "/ws"), initialCoord⟩ 80 24 false).1.aider.process =
      none := ⟨rfl, rfl⟩

/-- Claim C4 (amended): when the readiness signal arrives while a Pending
Start Request exists and no session is running, the coordinator calls
startWithSize with the pending model and working directory and exactly
the reported columns and rows; the request is consumed and cleared when
startWithSize completes without error, while a spawn failure leaves it
pending (retried on a later readiness signal). If no request is pending
or a session is already running, the signal spawns nothing and changes
nothing. -/
theorem C4_ready_consumes_pending (ps : ProviderState) (mo ws : String)
    (cols rows : Nat) (spawnOk : Bool) :
    (ps.pendingAiderStart = some (mo, ws) → ps.aider.process = none →
      (handleWebviewReady ps cols rows spawnOk).2 =
        (startWithSize ps.aider mo ws cols rows false false false spawnOk).events ∧
      (spawnOk = true →
        (handleWebviewReady ps cols rows spawnOk).1.pendingAiderStart = none ∧
        (handleWebviewReady ps cols rows spawnOk).1.aider.process = some ps.aider.nextId ∧
        (handleWebviewReady ps cols rows spawnOk).1.aider.currentModel = mo ∧
        LEvent.spawnEvt ps.aider.nextId cols rows ws ∈
          (handleWebviewReady ps cols rows spawnOk).2) ∧
      (spawnOk = false →
        (handleWebviewReady ps cols rows spawnOk).1.pendingAiderStart = some (mo, ws) ∧
        (handleWebviewReady ps cols rows spawnOk).1.aider.process = none)) ∧
    (ps.pendingAiderStart = none → handleWebviewReady ps cols rows spawnOk = (ps, [])) ∧
    (∀ q, ps.aider.process = some q → handleWebviewReady ps cols rows spawnOk = (ps, [])) := by
  refine ⟨?_, ?_, ?_⟩
  · intro hpend hrun
    cases spawnOk <;>
      simp [handleWebviewReady, startWithSize, stop, hpend, hrun]
  · intro hpend
    simp [handleWebviewReady, hpend]
  · intro q hq
    cases hpend : ps.pendingAiderStart with
    | none => simp [handleWebviewReady, hpend]
    | some pr => simp [handleWebviewReady, hpend, hq]

/-- Witness for the amended C4: a pending request `("m", "/ws")` with an
idle coordinator and a successful spawn at 100×30. -/
theorem C4_ready_consumes_pending_witness :
    (handleWebviewReady ⟨some ("m", "/ws"), initialCoord⟩ 100 30 true).1.pendingAiderStart =
      none ∧
    (handleWebviewReady ⟨some ("m", "/ws"), initialCoord⟩ 100 30 true).1.aider.process =
      some 0 ∧
    (handleWebviewReady ⟨some ("m", "/ws"), initialCoord⟩ 100 30 true).1.aider.currentModel =
      "m" ∧
    LEvent.spawnEvt 0 100 30 "/ws" ∈
      (handleWebviewReady ⟨some ("m", "/ws"), initialCoord⟩ 100 30 true).2 :=
  ((C4_ready_consumes_pending ⟨some ("m", "/ws"), initialCoord⟩ "m" "/ws" 100 30 true).1
    rfl rfl).2.1 rfl

/-! ### Claim C6 -/

/-- Counterexample to claim C6 as stated: with a running session, when the
graceful write succeeds but the force-kill raises on both attempts, stop
propagates the error and the session reference is not cleared, so
isRunning is still true afterwards — the claim that session state is
cleared "in every case, including when the write or the kill raises" does
not hold for a raising kill. -/
theorem C6_counterexample :
    (stop ⟨some 0, DEFAULT_MODEL, [0], 1, []⟩ false true true).threw = true ∧
    (stop ⟨some 0, DEFAULT_MODEL, [0], 1, []⟩ false true true).state.process = some 0 :=
  ⟨rfl, rfl⟩

/-- Claim C6 (amended): stop() is a no-op when no session exists;
otherwise it writes the graceful-exit command, waits the fixed grace
period, then force-kills. Whenever stop() returns without throwing —
including when the graceful write raises — the session state is cleared,
so isRunning is false; but when the force-kill itself raises (both
attempts in the try path, or the catch-side attempt after a failed
write), the error propagates and the session reference is retained. -/
theorem C6_stop_clears (s : CoordState) (wT k1 k2 : Bool) :
    (s.process = none → stop s wT k1 k2 = ⟨s, [], false⟩) ∧
    ((stop s wT k1 k2).threw = false → (stop s wT k1 k2).state.process = none) ∧
    ((stop s wT k1 k2).threw = true →
      s.process ≠ none ∧ (stop s wT k1 k2).state.process = s.process) ∧
    (∀ p, s.process = some p → wT = false → k1 = false →
      stop s wT k1 k2 = ⟨{ s with process := none, live := s.live.erase p },
        [LEvent.writeChild exitCmd, LEvent.delayMs 1000, LEvent.killEvt p], false⟩) := by
  cases hp : s.process with
  | none => simp [stop, hp]
  | some p =>
    cases wT <;> cases k1 <;> cases k2 <;> simp [stop, hp]

/-- Witness for the amended C6: a running session with all external
operations succeeding is cleared, with the graceful write, the grace
delay and the kill in order. -/
theorem C6_stop_clears_witness :
    stop ⟨some 0, DEFAULT_MODEL, [0], 1, []⟩ false false false =
      ⟨⟨none, DEFAULT_MODEL, [], 1, []⟩,
        [LEvent.writeChild exitCmd, LEvent.delayMs 1000, LEvent.killEvt 0], false⟩ :=
  (C6_stop_clears ⟨some 0, DEFAULT_MODEL, [0], 1, []⟩ false false false).2.2.2 0 rfl rfl rfl

/-! ### Claim C7 -/

/-- Claim C7: calling sendMessage while isRunning is false fails with
NotRunningError and has no side effect — nothing is written to the child,
no callback fires, and the whole coordinator state (the Interception
Buffer included) is unchanged. -/
theorem C7_sendMessage_not_running (s : CoordState) (m : List Char) (writeOk : Bool)
    (h : s.process = none) :
    sendMessage s m writeOk = ⟨s, [], true⟩ := by
  simp [sendMessage, h]

/-- Witness for C7 at the freshly constructed coordinator. -/
theorem C7_sendMessage_not_running_witness :
    initialCoord.process = none ∧
    sendMessage initialCoord "hello".toList true = ⟨initialCoord, [], true⟩ :=
  ⟨rfl, C7_sendMessage_not_running initialCoord "hello".toList true rfl⟩

/-! ### Claim C8 -/

/-- Counterexample to claim C8 as stated: tab (0x09) is a non-printable
control byte and not a line ending, yet the sanitization pass preserves
it — `sendMessage "a\t b"` on a running session writes `"a\tb\r"`, not
the result of removing every non-printable control byte other than line
endings. -/
theorem C8_counterexample :
    sanitizeInput "a\tb".toList ≠ specSanitize "a\tb".toList ∧
    (sendMessage ⟨some 0, DEFAULT_MODEL, [0], 1, []⟩ "a\tb".toList true).events =
      [LEvent.writeChild "a\tb\r".toList] := by
  refine ⟨by decide, rfl⟩

/-- Claim C8 (amended): when a session is active and the pipe write
succeeds, sendMessage(text) writes to the child exactly one string — the
text with precisely the control bytes 0x00–0x08, 0x0B, 0x0C, 0x0E–0x1F
and 0x7F removed (tab, line feed and carriage return are preserved), all
remaining characters unchanged and in order, followed by one carriage
return — and the coordinator state is unchanged. -/
theorem C8_sendMessage_sanitized (s : CoordState) (m : List Char) (p : Nat)
    (h : s.process = some p) :
    (sendMessage s m true).events = [LEvent.writeChild (sanitizeInput m ++ ['\r'])] ∧
    (sendMessage s m true).state = s ∧
    (sendMessage s m true).threw = false ∧
    sanitizeInput m =
      m.filter (fun c => !(c.toNat ≤ 8 || c.toNat == 11 || c.toNat == 12 ||
        (14 ≤ c.toNat && c.toNat ≤ 31) || c.toNat == 127)) := by
  refine ⟨?_, ?_, ?_, rfl⟩ <;> simp [sendMessage, h]

/-- Witness for the amended C8 at a running session and the message
`"a\x01b\tc"` (0x01 removed, tab preserved). -/
theorem C8_sendMessage_sanitized_witness :
    (sendMessage ⟨some 0, DEFAULT_MODEL, [0], 1, []⟩ "a\x01b\tc".toList true).events =
      [LEvent.writeChild (sanitizeInput "a\x01b\tc".toList ++ ['\r'])] ∧
    (sendMessage ⟨some 0, DEFAULT_MODEL, [0], 1, []⟩ "a\x01b\tc".toList true).state =
      ⟨some 0, DEFAULT_MODEL, [0], 1, []⟩ ∧
    (sendMessage ⟨some 0, DEFAULT_MODEL, [0], 1, []⟩ "a\x01b\tc".toList true).threw = false ∧
    sanitizeInput "a\x01b\tc".toList =
      "a\x01b\tc".toList.filter (fun c => !(c.toNat ≤ 8 || c.toNat == 11 || c.toNat == 12 ||
        (14 ≤ c.toNat && c.toNat ≤ 31) || c.toNat == 127)) :=
  C8_sendMessage_sanitized ⟨some 0, DEFAULT_MODEL, [0], 1, []⟩ "a\x01b\tc".toList 0 rfl

/-! ### Claim C10 -/

/-- Claim C10: if startWithSize fails because spawning throws (the prior
graceful stop, if any, succeeding), then after the error is raised no
session exists — isRunning is false — yet currentModel equals the model
argument of the failed call: the identifier is updated before spawning
and is not rolled back on failure, so a failed start changes the publicly
visible currentModel. -/
theorem C10_failed_start_updates_model (s : CoordState) (model ws : String)
    (cols rows : Nat) :
    (startWithSize s model ws cols rows false false false false).threw = true ∧
    (startWithSize s model ws cols rows false false false false).state.process = none ∧
    (startWithSize s model ws cols rows false false false false).state.currentModel =
      model := by
  cases hp : s.process <;> simp [startWithSize, stop, hp]

end AiderChat
